import Mathlib

/-!
Verification of the news-editor publishing pipeline.

The definitions below are a shallow embedding of the Python services in
`src/services` (planner.py, timer.py, calculator.py, publisher.py,
preparator.py).  Machine integers are modelled as `Int` (Python ints are
unbounded), floats as `ℚ` where the code only performs field arithmetic and
as `ℝ` where it takes logarithms, SQL `NULL` as `Option`, and each service
tick as an explicit state-transformation function.  Python `//` and `%` on
ints agree with Lean's `Int` division and modulo (both floor/Euclidean for
positive divisors).
-/

/-- Python truthiness default `x or d` for an optional integer column:
`None` and `0` are falsy and replaced by the default. -/
def pyOrInt (x : Option ℤ) (d : ℤ) : ℤ :=
  match x with
  | none => d
  | some v => if v = 0 then d else v

/-- Python `round` on a real number: round half to even (banker's rounding). -/
def pyRound (q : ℚ) : ℤ :=
  let f := ⌊q⌋
  let r := q - (f : ℚ)
  if r < 1/2 then f
  else if 1/2 < r then f + 1
  else if f % 2 = 0 then f else f + 1

/-- Python `round(x, 2)`: round to two decimal places, half to even. -/
def pyRound2 (q : ℚ) : ℚ :=
  ((pyRound (q * 100) : ℤ) : ℚ) / 100

/-- Python `int(...)` applied to a float: truncation toward zero. -/
def pyInt (q : ℚ) : ℤ :=
  if 0 ≤ q then ⌊q⌋ else -⌊-q⌋

namespace Timer

/-- `ENTROPY_PENALTY_MAP` from timer.py together with the
`DEFAULT_ENTROPY_PENALTY = 3` fallback of `dict.get`. -/
def entropyPenaltyMap (rank : ℕ) : ℤ :=
  if rank = 0 then 0
  else if rank = 1 then 0
  else if rank = 2 then 1
  else if rank = 3 then 1
  else if rank = 4 then 2
  else if rank = 5 then 2
  else 3

/-- `DEFAULT_ENTROPY_PENALTY` in timer.py. -/
def DEFAULT_ENTROPY_PENALTY : ℤ := 3

/-- Circular distance between two hours:
`min(abs(a - b), 24 - abs(a - b))` as computed in timer.py. -/
def circularDist (a b : ℤ) : ℤ :=
  min |a - b| (24 - |a - b|)

/-- The minimum-distance fold of `_calculate_base_best_time_score`: walks
`best_times`, skipping hours outside `0..23`, tracking the least circular
distance to the target hour and the hour attaining it (`best_hour_for_score`).
`none` models the initial `float('inf')` / `None` state. -/
def foldMinDist (target : ℤ) (bts : List ℤ) : Option (ℤ × ℤ) :=
  bts.foldl (fun acc h =>
    if 0 ≤ h ∧ h ≤ 23 then
      match acc with
      | none => some (circularDist target h, h)
      | some (dmin, bmin) =>
        if circularDist target h < dmin then some (circularDist target h, h)
        else some (dmin, bmin)
    else acc) none

/-- `TimerService._calculate_base_best_time_score`.  `hourRarity` is the
rarity map (`dict.get` default 1.0 folded into the function). -/
def calculateBaseBestTimeScore (currentHour : ℤ) (bestTimes : List ℤ)
    (hourRarity : ℤ → ℚ) : ℤ :=
  if bestTimes = [] then 5
  else
    match foldMinDist currentHour bestTimes with
    | none => 5
    | some (dmin, bmin) =>
      let baseScore : ℤ := max 1 (10 - dmin)
      let rarity : ℚ := hourRarity bmin
      let rarityBonus : ℚ := rarity * 3
      let finalScore : ℚ := (baseScore : ℚ) + rarityBonus
      let clamped : ℚ := max 1 (min 10 finalScore)
      pyRound clamped

/-- Step 3 of `TimerService._process_single_record`:
`time_best_score = max(1, base_time_score - entropy_penalty)`. -/
def timeBestScore (currentHour : ℤ) (bestTimes : List ℤ)
    (hourRarity : ℤ → ℚ) (entropyPenalty : ℤ) : ℤ :=
  max 1 (calculateBaseBestTimeScore currentHour bestTimes hourRarity - entropyPenalty)

/-- The `percentage_passed >= 90 / 80 / ... / 10` elif-chain at the end of
`TimerService._calculate_expire_score`, factored out as a function of the
percentage. -/
def expireScoreOfPct (pct : ℚ) : ℤ :=
  if 90 ≤ pct then 10
  else if 80 ≤ pct then 9
  else if 70 ≤ pct then 8
  else if 60 ≤ pct then 7
  else if 50 ≤ pct then 6
  else if 40 ≤ pct then 5
  else if 30 ≤ pct then 4
  else if 20 ≤ pct then 3
  else if 10 ≤ pct then 2
  else 1

/-- A threshold/elif chain as a fold over a list of `(threshold, value)`
pairs; `expireScoreOfPct` is definitionally this chain over
`expireThresholds` (see `expireScoreOfPct_eq_chain`). -/
def thresholdChain (pct : ℚ) : List (ℚ × ℤ) → ℤ → ℤ
  | [], d => d
  | (t, v) :: rest, d => if t ≤ pct then v else thresholdChain pct rest d

/-- The thresholds used by `_calculate_expire_score`. -/
def expireThresholds : List (ℚ × ℤ) :=
  [(90, 10), (80, 9), (70, 8), (60, 7), (50, 6), (40, 5), (30, 4), (20, 3), (10, 2)]

/-- `TimerService._calculate_expire_score`.  Dates are modelled as integer
day numbers, so `self.current_date - post_date` is `currentDate - postDate`
days and `post_date + timedelta(days=expire_days)` is `postDate + expireDays`. -/
def calculateExpireScore (currentDate postDate expireDays : ℤ) : ℤ :=
  let expireDate := postDate + expireDays
  if expireDate ≤ currentDate then 10
  else
    let totalLife := expireDays
    let daysPassed := currentDate - postDate
    let percentagePassed : ℚ :=
      if 0 < totalLife then ((daysPassed : ℚ) / (totalLife : ℚ)) * 100 else 100
    expireScoreOfPct percentagePassed

/-- The expire-score path of `TimerService._process_single_record`:
`expire_days = record['expire'] or 3` followed by `_calculate_expire_score`. -/
def processExpireScore (currentDate postTime : ℤ) (expire : Option ℤ) : ℤ :=
  calculateExpireScore currentDate postTime (pyOrInt expire 3)

/-- A record as read by Stage C of the Timer (`id` and `best_times`). -/
structure EntropyRec where
  id : ℤ
  bestTimes : List ℤ
deriving DecidableEq

/-- The minimum circular distance from `hour` to a valid (0..23) entry of
`best_times`, as computed by the loops of `_calculate_record_contribution`
and `_calculate_coverage`; `none` models the initial `float('inf')`. -/
def minValidDist (hour : ℤ) (bts : List ℤ) : Option ℤ :=
  bts.foldl (fun acc bh =>
    if 0 ≤ bh ∧ bh ≤ 23 then
      match acc with
      | none => some (circularDist hour bh)
      | some dmin =>
        if circularDist hour bh < dmin then some (circularDist hour bh) else some dmin
    else acc) none

/-- The linear coverage contribution `max(0, 10 - min_distance)` of one
record at one hour (0 when no valid best hour exists, since
`max(0, 10 - inf) = 0`). -/
def contributionAt (bts : List ℤ) (hour : ℤ) : ℚ :=
  match minValidDist hour bts with
  | none => 0
  | some d => max 0 (10 - (d : ℚ))

/-- `TimerService._calculate_record_contribution`. -/
def calculateRecordContribution (bts : List ℤ) : List ℚ :=
  if bts = [] then List.replicate 24 0
  else (List.range 24).map (fun h => contributionAt bts (h : ℤ))

/-- `TimerService._calculate_coverage`: the pointwise sum of the
contributions of all records with non-empty `best_times`. -/
def calculateCoverage (records : List EntropyRec) : List ℚ :=
  records.foldl (fun cov r =>
    if r.bestTimes = [] then cov
    else List.zipWith (fun a b => a + b) cov (calculateRecordContribution r.bestTimes))
    (List.replicate 24 0)

/-- `TimerService._calculate_entropy`: Shannon entropy of the coverage
distribution (0 when the total is not positive). -/
noncomputable def calculateEntropy (coverage : List ℚ) : ℝ :=
  let total := coverage.sum
  if total ≤ 0 then 0
  else - (coverage.map (fun v =>
      if 0 < v then ((v : ℝ) / (total : ℝ)) * Real.logb 2 ((v : ℝ) / (total : ℝ))
      else 0)).sum

/-- The `delta_entropy` of one record in
`_calculate_entropy_penalties_for_records`; a record with empty `best_times`
gets `-float('inf')`, modelled as `⊥` in `WithBot ℝ`. -/
noncomputable def deltaEntropy (originalCoverage : List ℚ) (originalEntropy : ℝ)
    (r : EntropyRec) : WithBot ℝ :=
  if r.bestTimes = [] then ⊥
  else ((calculateEntropy (List.zipWith (fun a b => a + b) originalCoverage
      (calculateRecordContribution r.bestTimes)) - originalEntropy : ℝ) : WithBot ℝ)

/-- The `entropy_changes` list, in record order. -/
noncomputable def entropyChanges (records : List EntropyRec) :
    List (EntropyRec × WithBot ℝ) :=
  let coverage := calculateCoverage records
  let originalEntropy := calculateEntropy coverage
  records.map (fun r => (r, deltaEntropy coverage originalEntropy r))

/-- `entropy_changes.sort(key=lambda x: x[1], reverse=True)`: a stable
descending sort on the entropy delta. -/
noncomputable def rankedChanges (records : List EntropyRec) :
    List (EntropyRec × WithBot ℝ) :=
  (entropyChanges records).mergeSort (fun a b => decide (b.2 ≤ a.2))

/-- The `penalties` dict of `_calculate_entropy_penalties_for_records`:
rank in the sorted order, mapped through `ENTROPY_PENALTY_MAP`. -/
noncomputable def calculateEntropyPenalties (records : List EntropyRec) :
    List (ℤ × ℤ) :=
  (rankedChanges records).enum.map (fun p => (p.2.1.id, entropyPenaltyMap p.1))

/-- `entropy_penalties.get(record['id'], DEFAULT_ENTROPY_PENALTY)` as done in
`run_analysis`. -/
noncomputable def penaltyFor (records : List EntropyRec) (recordId : ℤ) : ℤ :=
  (List.lookup recordId (calculateEntropyPenalties records)).getD DEFAULT_ENTROPY_PENALTY

end Timer

namespace Calculator

/-- The default dimension weights of `CalculatorService._initialize_weights`
(`LT_TOPIC_WEIGHT` .. `TIME_EXPIRE_WEIGHT` environment defaults), in the
iteration order of `self.weights`. -/
def weights : List ℚ :=
  [15/100, 15/100, 15/100, 15/100, 15/100, 20/100, 5/100]

/-- The per-dimension score columns read by `_get_ready_records`, `NULL`
modelled as `none`.  Non-numeric values (which the code maps to `None` on a
conversion error) are likewise `none`. -/
structure ScoreRecord where
  lt_topic : Option ℚ
  lt_mood : Option ℚ
  mt_topic : Option ℚ
  mt_mood : Option ℚ
  mt_author : Option ℚ
  time_best : Option ℚ
  time_expire : Option ℚ

/-- The scores of a record in the iteration order of `self.weights.keys()`. -/
def scoresOf (r : ScoreRecord) : List (Option ℚ) :=
  [r.lt_topic, r.lt_mood, r.mt_topic, r.mt_mood, r.mt_author, r.time_best, r.time_expire]

/-- Step 3 of `_calculate_score`: a score is valid iff present and
strictly positive. -/
def isValidScore (s : Option ℚ) : Bool :=
  match s with
  | some v => decide (0 < v)
  | none => false

/-- The `valid` dict of `_calculate_score`: the (score, weight) pairs whose
score is present and strictly positive, in iteration order. -/
def validPairs (pairs : List (Option ℚ × ℚ)) : List (ℚ × ℚ) :=
  pairs.filterMap (fun p =>
    match p.1 with
    | some v => if 0 < v then some (v, p.2) else none
    | none => none)

/-- The `invalid_weight` accumulator of `_calculate_score`. -/
def invalidWeight (pairs : List (Option ℚ × ℚ)) : ℚ :=
  ((pairs.filter (fun p => ! isValidScore p.1)).map (fun p => p.2)).sum

/-- `CalculatorService._calculate_score` with the default weights: weight
redistribution over the valid dimensions, weighted mean, clamp to [1, 10],
round to two decimals. -/
def calculateScore (r : ScoreRecord) : ℚ :=
  let pairs := (scoresOf r).zip weights
  let valid := validPairs pairs
  let invW := invalidWeight pairs
  if valid = [] then 5
  else
    let adjusted :=
      if 0 < invW then
        let weightPerValid := invW / (valid.length : ℚ)
        valid.map (fun q => (q.1, q.2 + weightPerValid))
      else valid
    let totalScore := (adjusted.map (fun q => q.1 * q.2)).sum
    let totalWeight := (adjusted.map (fun q => q.2)).sum
    let final := if 0 < totalWeight then totalScore / totalWeight else 5
    let clamped := if final < 1 then 1 else if 10 < final then 10 else final
    pyRound2 clamped

end Calculator

namespace Planner

/-- `PER_HOUR` default from planner.py (characters per hour). -/
def PER_HOUR : ℤ := 300

/-- `MIN` environment default: minimal publication hour, Moscow time. -/
def MIN_HOUR_MSK : ℤ := 9

/-- `MAX` environment default: maximal publication hour, Moscow time. -/
def MAX_HOUR_MSK : ℤ := 21

/-- `MIN_HOUR_UTC = MIN_HOUR_MSK - 3` computed at module load in planner.py. -/
def MIN_HOUR_UTC : ℤ := MIN_HOUR_MSK - 3

/-- `MAX_HOUR_UTC = MAX_HOUR_MSK - 3` computed at module load in planner.py. -/
def MAX_HOUR_UTC : ℤ := MAX_HOUR_MSK - 3

/-- `PlannerService._get_utc_hour_from_unix`: `(unix_time // 3600) % 24`. -/
def getUtcHourFromUnix (t : ℤ) : ℤ :=
  (t / 3600) % 24

/-- `datetime.fromtimestamp(t).date()` as a day number, with the process
timezone taken to be UTC (the deployment standard assumed throughout
planner.py's logging and the spec). -/
def dateOfTimestamp (t : ℤ) : ℤ :=
  t / 86400

/-- `datetime.combine(day, time(hour, 0)).timestamp()` under the same UTC
process-timezone convention. -/
def combineTimestamp (d h : ℤ) : ℤ :=
  d * 86400 + h * 3600

/-- `PlannerService._create_utc_time_for_datetime`: the timestamp of
`hour_utc:00` on `daysToAdd` days after the calendar day of `t`. -/
def createUtcTimeForDatetime (t daysToAdd hourUtc : ℤ) : ℤ :=
  combineTimestamp (dateOfTimestamp t + daysToAdd) hourUtc

/-- `PlannerService._create_utc_time_days_from_now` (same computation, with
`t` the current time). -/
def createUtcTimeDaysFromNow (nowUnix days hourUtc : ℤ) : ℤ :=
  combineTimestamp (dateOfTimestamp nowUnix + days) hourUtc

/-- The prior-publication branch of
`PlannerService._calculate_next_publish_time_and_hour`: raw candidate
`last_published + int(length / PER_HOUR * 3600)` (with `length or 300`),
then snapped into the `[MIN_HOUR_UTC, MAX_HOUR_UTC]` window.  Returns
`(final_unix_time, final_hour_utc)`. -/
def calculateNextFromLast (lastPublished : ℤ) (length : Option ℤ) : ℤ × ℤ :=
  let len := pyOrInt length 300
  let hoursUntilNext : ℚ := (len : ℚ) / (PER_HOUR : ℚ)
  let secondsUntilNext : ℤ := pyInt (hoursUntilNext * 3600)
  let nextUnixTime := lastPublished + secondsUntilNext
  let nextHourUtc := getUtcHourFromUnix nextUnixTime
  let finalUnixTime :=
    if MIN_HOUR_UTC ≤ nextHourUtc ∧ nextHourUtc ≤ MAX_HOUR_UTC then nextUnixTime
    else if nextHourUtc < MIN_HOUR_UTC then createUtcTimeForDatetime nextUnixTime 0 MIN_HOUR_UTC
    else createUtcTimeForDatetime nextUnixTime 1 MIN_HOUR_UTC
  (finalUnixTime, getUtcHourFromUnix finalUnixTime)

/-- The no-prior-publication branch of
`_calculate_next_publish_time_and_hour`, as a function of the current unix
time.  Returns `(next_unix, target_hour)`. -/
def calculateNextFirstRun (nowUnix : ℤ) : ℤ × ℤ :=
  let currentHourUtc := getUtcHourFromUnix nowUnix
  if MAX_HOUR_UTC < currentHourUtc then
    (createUtcTimeDaysFromNow nowUnix 1 MIN_HOUR_UTC, MIN_HOUR_UTC)
  else if currentHourUtc < MIN_HOUR_UTC then
    (createUtcTimeDaysFromNow nowUnix 0 MIN_HOUR_UTC, MIN_HOUR_UTC)
  else
    (nowUnix, currentHourUtc)

/-- The payload columns `_move_to_publish` copies from `editor` into
`to_publish`. -/
structure Payload where
  text : String
  mood : String
  topic : String
  names : String
  author : String
  length : Option ℤ
deriving DecidableEq

/-- An `editor` row as seen by the Planner round: id, payload, status flags
and scores (nullable columns as `Option`). -/
structure EditorRow where
  id : ℤ
  payload : Payload
  lt : Bool
  mt : Bool
  time : Bool
  analyzed : Bool
  final_score : Option ℚ
  timeBest : Option ℤ
  timeExpire : Option ℤ
deriving DecidableEq

/-- A `to_publish` row as created by `_move_to_publish` (payload, scheduled
time and final score). -/
structure ToPublishRow where
  payload : Payload
  time : ℤ
  final_score : Option ℚ
deriving DecidableEq

/-- A `published` row as read by the Planner: id, delivery time, length and
the `next` chain flag. -/
structure PublishedRow where
  id : ℤ
  published : ℤ
  length : Option ℤ
  next : Bool
deriving DecidableEq

/-- The three tables the Planner round touches. -/
structure PlannerState where
  editor : List EditorRow
  toPublish : List ToPublishRow
  published : List PublishedRow
deriving DecidableEq

/-- `SELECT ... FROM published WHERE id = (SELECT MAX(id) FROM published)`. -/
def maxIdRow (l : List PublishedRow) : Option PublishedRow :=
  match (l.map (fun p => p.id)).max? with
  | none => none
  | some m => l.find? (fun p => p.id == m)

/-- `PlannerService._should_run_planning`: run when `published` is empty or
the max-id row has `next = false`. -/
def shouldRunPlanning (s : PlannerState) : Bool :=
  match maxIdRow s.published with
  | none => true
  | some row => ! row.next

/-- `PlannerService._calculate_next_publish_time_and_hour`: first-run branch
when `published` is empty, otherwise computed from the last publication. -/
def calculateNextPublishTime (nowUnix : ℤ) (s : PlannerState) : ℤ × ℤ :=
  match maxIdRow s.published with
  | none => calculateNextFirstRun nowUnix
  | some row => calculateNextFromLast row.published row.length

/-- `PlannerService._reset_editor_flags`:
`UPDATE editor SET mt = false, time = false, analyzed = false`. -/
def resetEditorFlags (l : List EditorRow) : List EditorRow :=
  l.map (fun r => { r with mt := false, time := false, analyzed := false })

/-- Postgres `ORDER BY col DESC` comparison on a nullable numeric column:
`NULL` sorts first (before every value) and larger values sort earlier. -/
def optDescBeforeQ (x y : Option ℚ) : Bool :=
  match x, y with
  | none, none => false
  | none, some _ => true
  | some _, none => false
  | some a, some b => decide (b < a)

/-- Postgres `ORDER BY col DESC` comparison on a nullable integer column. -/
def optDescBeforeZ (x y : Option ℤ) : Bool :=
  match x, y with
  | none, none => false
  | none, some _ => true
  | some _, none => false
  | some a, some b => decide (b < a)

/-- Strictly-before relation of the `_select_best_record` ordering:
`ORDER BY final_score DESC, "time-best" DESC, "time-expire" DESC, id ASC`. -/
def rowBefore (r q : EditorRow) : Bool :=
  if optDescBeforeQ r.final_score q.final_score then true
  else if optDescBeforeQ q.final_score r.final_score then false
  else if optDescBeforeZ r.timeBest q.timeBest then true
  else if optDescBeforeZ q.timeBest r.timeBest then false
  else if optDescBeforeZ r.timeExpire q.timeExpire then true
  else if optDescBeforeZ q.timeExpire r.timeExpire then false
  else decide (r.id < q.id)

/-- `PlannerService._select_best_record`: among rows with `analyzed = true`
and non-null `final_score`, the first row of the `ORDER BY ... LIMIT 1`
query, returned as its id. -/
def selectBestRecord (editor : List EditorRow) : Option ℤ :=
  let cands := editor.filter (fun r => r.analyzed && r.final_score.isSome)
  (cands.foldl (fun acc r =>
    match acc with
    | none => some r
    | some b => if rowBefore r b then some r else some b) none).map (fun r => r.id)

/-- `PlannerService._move_to_publish` run to completion: fetch the payload of
the winner from `editor`, insert it into `to_publish` with the given time,
delete the winner from `editor`.  A missing winner logs and returns with no
change. -/
def moveToPublish (s : PlannerState) (recordId publishTime : ℤ) : PlannerState :=
  match s.editor.find? (fun r => r.id == recordId) with
  | none => s
  | some row =>
    { s with
      toPublish := s.toPublish ++ [⟨row.payload, publishTime, row.final_score⟩],
      editor := s.editor.filter (fun r => ! (r.id == recordId)) }

/-- `PlannerService._set_next_true`:
`UPDATE published SET next = true WHERE id = (SELECT MAX(id) FROM published)`. -/
def setNextTrue (l : List PublishedRow) : List PublishedRow :=
  match (l.map (fun p => p.id)).max? with
  | none => l
  | some m => l.map (fun p => if p.id == m then { p with next := true } else p)

/-- One Planner round (`_check_and_plan`), for a given current time and an
arbitrary scoring phase standing for the MTB / TimeScorer / Aggregator work
done between the flag reset and the winner selection (those services only
`UPDATE` score and flag columns of existing rows).  `none` models the early
returns: precondition false, or no winner found. -/
def runRound (nowUnix : ℤ) (scoring : List EditorRow → List EditorRow)
    (s : PlannerState) : Option PlannerState :=
  if ! shouldRunPlanning s then none
  else
    let nextUnix := (calculateNextPublishTime nowUnix s).1
    let editorScored := scoring (resetEditorFlags s.editor)
    match selectBestRecord editorScored with
    | none => none
    | some bestId =>
      let s2 := moveToPublish { s with editor := editorScored } bestId nextUnix
      some { s2 with published := setNextTrue s2.published }

/-- Number of `published` rows with `next = true`. -/
def countNextTrue (l : List PublishedRow) : ℕ :=
  (l.filter (fun p => p.next)).length

/-- The two SQL statements of `_move_to_publish` after the fetch, in program
order: the `INSERT INTO to_publish` and the `DELETE FROM editor`.  The
method runs them on one connection without opening a transaction, so each
statement commits on its own. -/
def moveToPublishStatements (s : PlannerState) (recordId publishTime : ℤ) :
    List (PlannerState → PlannerState) :=
  match s.editor.find? (fun r => r.id == recordId) with
  | none => []
  | some row =>
    [fun st => { st with toPublish := st.toPublish ++ [⟨row.payload, publishTime, row.final_score⟩] },
     fun st => { st with editor := st.editor.filter (fun r => ! (r.id == recordId)) }]

/-- The state visible after the first `k` statements committed — the state a
crash between statements leaves behind, since there is no transaction to
roll the earlier statements back. -/
def applyCommitted (s : PlannerState) (stmts : List (PlannerState → PlannerState))
    (k : ℕ) : PlannerState :=
  (stmts.take k).foldl (fun st f => f st) s

/-- A concrete scoring phase: mark every row analyzed with final score 8
(standing for MTB, TimeScorer and Aggregator completing on every row). -/
def exampleScoring : List EditorRow → List EditorRow :=
  fun l => l.map (fun r => { r with analyzed := true, final_score := some 8 })

/-- A concrete editor row. -/
def exampleEditorRow : EditorRow :=
  { id := 1
    payload := { text := "t", mood := "m", topic := "p", names := "n",
                 author := "a", length := some 100 }
    lt := true, mt := false, time := false, analyzed := false
    final_score := none, timeBest := none, timeExpire := none }

/-- A concrete state: one candidate, empty `to_publish`, empty `published`. -/
def exampleState : PlannerState :=
  { editor := [exampleEditorRow], toPublish := [], published := [] }

/-- The state after one successful round on `exampleState` at `now = 0`. -/
def exampleResult : PlannerState :=
  { editor := []
    toPublish := [{ payload := exampleEditorRow.payload, time := 21600, final_score := some 8 }]
    published := [] }

/-- `exampleEditorRow` after the scoring phase. -/
def examplePreparedRow : EditorRow :=
  { exampleEditorRow with analyzed := true, final_score := some 8 }

/-- A concrete state in which `_move_to_publish` is about to run on row 1. -/
def exampleMoveState : PlannerState :=
  { editor := [examplePreparedRow], toPublish := [], published := [] }

/-- `_move_to_publish` interrupted after `k` committed statements. -/
def moveToPublishPartial (s : PlannerState) (recordId publishTime : ℤ) (k : ℕ) :
    PlannerState :=
  applyCommitted s (moveToPublishStatements s recordId publishTime) k

end Planner

namespace Publisher

/-- A `to_publish` row as read by the Publisher (`_get_records_for_publishing`
columns plus the flags its WHERE clause tests). -/
structure PubRow where
  id : ℤ
  text : String
  author : String
  topic : String
  mood : String
  names : String
  length : Option ℤ
  text_prepared : Option String
  picBase64 : Option String
  pic : Bool
  prepare : Bool
  published : Bool
  time : ℤ
deriving DecidableEq

/-- A `published` row as inserted by `_copy_to_published`. -/
structure PublishedRec where
  text : String
  author : String
  topic : String
  mood : String
  names : String
  length : Option ℤ
  published : ℤ
  next : Bool
deriving DecidableEq

/-- The two tables the Publisher touches. -/
structure PublisherState where
  toPublish : List PubRow
  published : List PublishedRec
deriving DecidableEq

/-- The WHERE clause of `_get_records_for_publishing`: `published = false AND
pic = true AND "pic-base64" IS NOT NULL AND LENGTH("pic-base64") > 100 AND
prepare = true AND text_prepared IS NOT NULL AND LENGTH(text_prepared) > 10
AND time <= now`.  SQL `LENGTH(NULL)` is NULL, which never satisfies `>`. -/
def eligibleForPublishing (now : ℤ) (r : PubRow) : Bool :=
  !r.published && r.pic &&
  (match r.picBase64 with
   | some s => decide (100 < s.length)
   | none => false) &&
  r.prepare &&
  (match r.text_prepared with
   | some s => decide (10 < s.length)
   | none => false) &&
  decide (r.time ≤ now)

/-- `PublisherService._get_records_for_publishing`: the eligible rows,
`ORDER BY id ASC LIMIT 10`. -/
def getRecordsForPublishing (now : ℤ) (rows : List PubRow) : List PubRow :=
  ((rows.filter (eligibleForPublishing now)).mergeSort
    (fun a b => decide (a.id ≤ b.id))).take 10

/-- The row `_copy_to_published` inserts into `published`. -/
def mkPublishedRec (now : ℤ) (r : PubRow) (nextFlag : Bool) : PublishedRec :=
  { text := r.text, author := r.author, topic := r.topic, mood := r.mood,
    names := r.names, length := r.length, published := now, next := nextFlag }

/-- `PublisherService._copy_to_published`. -/
def copyToPublished (st : PublisherState) (r : PubRow) (nextFlag : Bool)
    (now : ℤ) : PublisherState :=
  { st with published := st.published ++ [mkPublishedRec now r nextFlag] }

/-- `PublisherService._mark_as_published`:
`UPDATE to_publish SET published = true WHERE id = $1`. -/
def markAsPublished (st : PublisherState) (recordId : ℤ) : PublisherState :=
  { st with
    toPublish := st.toPublish.map (fun r =>
      if r.id == recordId then { r with published := true } else r) }

/-- The publishing loop of `_check_and_publish`: walk the fetched batch in
order with its indices, `next = not is_last_record`, stop at the first
delivery failure (`sendOK` stands for `_send_to_telegram`). -/
def publishLoop (now : ℤ) (sendOK : PubRow → Bool) (total : ℕ) :
    List (ℕ × PubRow) → PublisherState → PublisherState
  | [], st => st
  | (i, r) :: rest, st =>
    if sendOK r then
      publishLoop now sendOK total rest
        (markAsPublished (copyToPublished st r (! (i == total - 1)) now) r.id)
    else st

/-- One Publisher tick (`_check_and_publish`). -/
def checkAndPublish (now : ℤ) (sendOK : PubRow → Bool)
    (st : PublisherState) : PublisherState :=
  publishLoop now sendOK (getRecordsForPublishing now st.toPublish).length
    (getRecordsForPublishing now st.toPublish).enum st

/-- A `text_prepared` that is NULL or at most 10 characters long. -/
def shortTextPrepared (r : PubRow) : Bool :=
  match r.text_prepared with
  | none => true
  | some s => decide (s.length ≤ 10)

/-- A `pic-base64` that is NULL or at most 100 characters long. -/
def shortPicBase64 (r : PubRow) : Bool :=
  match r.picBase64 with
  | none => true
  | some s => decide (s.length ≤ 100)

/-- A concrete `to_publish` row with all flags set and `time` due, but a
`text_prepared` of only five characters. -/
def exampleBadRow : PubRow :=
  { id := 7, text := "body", author := "a", topic := "t", mood := "m",
    names := "n", length := some 4
    text_prepared := some "short"
    picBase64 := some (String.mk (List.replicate 200 'x'))
    pic := true, prepare := true, published := false, time := 50 }

/-- A concrete Publisher state containing only `exampleBadRow`. -/
def exampleBadState : PublisherState :=
  { toPublish := [exampleBadRow], published := [] }

end Publisher

namespace Preparator

/-- A `to_publish` row as seen by the Preparator. -/
structure PrepRow where
  id : ℤ
  text : Option String
  text_prepared : Option String
  prepare : Bool
deriving DecidableEq

/-- The `to_publish` table for the Preparator. -/
structure PrepState where
  toPublish : List PrepRow
deriving DecidableEq

/-- `PreparatorService._get_records_to_process`:
`WHERE prepare = false ORDER BY id ASC LIMIT 10`. -/
def getRecordsToProcess (rows : List PrepRow) : List PrepRow :=
  ((rows.filter (fun r => ! r.prepare)).mergeSort
    (fun a b => decide (a.id ≤ b.id))).take 10

/-- `self.special_chars`: the Markdown V2 characters escaped by
`_escape_markdown`, in list order (backslash first). -/
def specialChars : List String :=
  ["\\", "_", "*", "[", "]", "(", ")", "~", "`", ">", "<", "&", "#",
   "+", "-", "=", "|", "\x7b", "\x7d", ".", "!"]

/-- `PreparatorService._escape_markdown`. -/
def escapeMarkdown (text : String) : String :=
  if text = "" then ""
  else specialChars.foldl (fun t c => t.replace c ("\\" ++ c)) text

/-- The per-component cleanup of `_parse_text`: strip every line. -/
def cleanComponent (v : String) : String :=
  String.intercalate "\n" ((v.splitOn "\n").map String.trim)

/-- The split of `_parse_text` on the `1111` delimiter; the regex variant
consumes trailing whitespace that the per-part strip removes anyway, so the
part lists coincide. -/
def parseParts (rawText : String) : List String :=
  (rawText.trim.splitOn "1111").map String.trim

/-- `PreparatorService._parse_text`: 2 parts is the short format, 4 parts
the long format, anything else is unknown with no components. -/
def parseText (rawText : String) : String × List String :=
  let parts := parseParts rawText
  if parts.length = 2 then ("short", parts.map cleanComponent)
  else if parts.length = 4 then ("long", parts.map cleanComponent)
  else ("unknown", [])

/-- `PreparatorService._paragraph_quote`. -/
def paragraphQuote (text : String) : String :=
  if text = "" then ""
  else
    let paragraphs := ((text.splitOn "\n\n").map String.trim).filter (fun p => p ≠ "")
    let quotedParagraphs := paragraphs.map (fun para =>
      let lines := ((para.splitOn "\n").map String.trim).filter (fun l => l ≠ "")
      let quotedLines := lines.map (fun line => ">" ++ line)
      if 1 < quotedLines.length then String.intercalate "\n>" quotedLines
      else quotedLines.headD "")
    String.intercalate "\n>\n" quotedParagraphs

/-- The final text assembly at the end of `_prepare_components`. -/
def assembleText (originalEscaped outputPart link : String) : String :=
  let textParts :=
    [originalEscaped] ++
    (if outputPart ≠ "" then ["", outputPart] else []) ++
    ["", ""] ++
    ["[Оригинал](" ++ link ++ ")",
     "[Подписаться](https://t.me/news_anthology)"]
  String.intercalate "\n" textParts

/-- `PreparatorService._prepare_components`, with the component dict
represented as the ordered list `[original, link]` or
`[original, link, title, output]`. -/
def prepareComponents (textType : String) (components : List String) :
    Option String :=
  match components with
  | original :: link :: restComponents =>
    let originalEscaped := escapeMarkdown original
    if textType = "short" then
      some (assembleText originalEscaped "" link)
    else if textType = "long" then
      let title := restComponents.headD ""
      let output := restComponents.getD 1 ""
      let combined := if title ≠ "" then title ++ "\n\n" ++ output else output
      let outputPart := paragraphQuote (escapeMarkdown combined)
      some (assembleText originalEscaped outputPart link)
    else none
  | _ => none

/-- `PreparatorService._update_record`:
`SET text_prepared = $1, prepare = true WHERE id = $2`. -/
def updateRecord (st : PrepState) (recordId : ℤ) (preparedText : String) :
    PrepState :=
  { toPublish := st.toPublish.map (fun r =>
      if r.id == recordId then
        { r with text_prepared := some preparedText, prepare := true }
      else r) }

/-- The `prepare = true`-only branch of `_mark_as_processed`. -/
def setPrepareOnly (st : PrepState) (recordId : ℤ) : PrepState :=
  { toPublish := st.toPublish.map (fun r =>
      if r.id == recordId then { r with prepare := true } else r) }

/-- `PreparatorService._mark_as_processed` (a falsy `prepared_text` — `None`
or the empty string — only sets the flag). -/
def markAsProcessed (st : PrepState) (recordId : ℤ)
    (preparedText : Option String) : PrepState :=
  match preparedText with
  | some t => if t ≠ "" then updateRecord st recordId t else setPrepareOnly st recordId
  | none => setPrepareOnly st recordId

/-- The per-record body of `PreparatorService._process_records`. -/
def processOne (st : PrepState) (r : PrepRow) : PrepState :=
  match r.text with
  | none => markAsProcessed st r.id none
  | some rawText =>
    if rawText.trim = "" then markAsProcessed st r.id none
    else
      let tc := parseText rawText
      if tc.2 = [] then markAsProcessed st r.id none
      else
        match prepareComponents tc.1 tc.2 with
        | some prepared =>
          if prepared ≠ "" then updateRecord st r.id prepared
          else markAsProcessed st r.id none
        | none => markAsProcessed st r.id none

/-- `PreparatorService._process_records` over a fetched batch. -/
def processRecords (st : PrepState) (records : List PrepRow) : PrepState :=
  records.foldl processOne st

/-- One Preparator tick (`_check_and_process`). -/
def checkAndProcess (st : PrepState) : PrepState :=
  processRecords st (getRecordsToProcess st.toPublish)

/-- A `text` the Preparator cannot prepare: NULL, empty or whitespace-only,
or splitting on `1111` into a number of parts other than 2 or 4. -/
def textUnparseable (t : Option String) : Bool :=
  match t with
  | none => true
  | some s =>
    decide (s.trim = "") ||
    (! ((parseParts s).length == 2 || (parseParts s).length == 4))

/-- A concrete row whose `text` is NULL (which `_process_records` treats
like an empty text: `if not raw_text`). -/
def exampleBlankRow : PrepRow :=
  { id := 3, text := none, text_prepared := none, prepare := false }

/-- A concrete Preparator state containing only `exampleBlankRow`. -/
def exampleBlankState : PrepState :=
  { toPublish := [exampleBlankRow] }

end Preparator

namespace Timer

theorem expireScoreOfPct_eq_chain (p : ℚ) :
    expireScoreOfPct p = thresholdChain p expireThresholds 1 := rfl

theorem thresholdChain_le_bound (p : ℚ) (l : List (ℚ × ℤ)) (d B : ℤ)
    (hd : d ≤ B) (hl : ∀ q ∈ l, q.2 ≤ B) : thresholdChain p l d ≤ B := by
  induction l with
  | nil => exact hd
  | cons q rest ih =>
    obtain ⟨t, v⟩ := q
    simp only [thresholdChain]
    split_ifs
    · exact hl (t, v) (List.mem_cons_self _ _)
    · exact ih (fun q hq => hl q (List.mem_cons_of_mem _ hq))

theorem thresholdChain_mono {x y : ℚ} (h : x ≤ y) (l : List (ℚ × ℤ)) (d : ℤ)
    (hd : ∀ q ∈ l, d ≤ q.2) (hp : List.Pairwise (fun a b => b.2 ≤ a.2) l) :
    thresholdChain x l d ≤ thresholdChain y l d := by
  induction l with
  | nil => exact le_refl d
  | cons q rest ih =>
    obtain ⟨t, v⟩ := q
    rw [List.pairwise_cons] at hp
    simp only [thresholdChain]
    by_cases hty : t ≤ y
    · rw [if_pos hty]
      by_cases htx : t ≤ x
      · rw [if_pos htx]
      · rw [if_neg htx]
        exact thresholdChain_le_bound x rest d v
          (hd (t, v) (List.mem_cons_self _ _)) (fun q hq => hp.1 q hq)
    · have htx : ¬ t ≤ x := fun hx => hty (le_trans hx h)
      rw [if_neg hty, if_neg htx]
      exact ih (fun q hq => hd q (List.mem_cons_of_mem _ hq)) hp.2

theorem expireScoreOfPct_mono {x y : ℚ} (h : x ≤ y) :
    expireScoreOfPct x ≤ expireScoreOfPct y := by
  rw [expireScoreOfPct_eq_chain, expireScoreOfPct_eq_chain]
  exact thresholdChain_mono h expireThresholds 1 (by decide) (by decide)

theorem expireScoreOfPct_le_ten (x : ℚ) : expireScoreOfPct x ≤ 10 := by
  rw [expireScoreOfPct_eq_chain]
  exact thresholdChain_le_bound x expireThresholds 1 10 (by decide) (by decide)

theorem expireScore_le_ten (D P E : ℤ) : calculateExpireScore D P E ≤ 10 := by
  simp only [calculateExpireScore]
  by_cases hPE : P + E ≤ D
  · rw [if_pos hPE]
  · rw [if_neg hPE]
    exact expireScoreOfPct_le_ten _

end Timer

/-- C8: for every fixed pair (post_time, expire), the time-expire score
computed by `TimerService._calculate_expire_score` is monotone non-decreasing
as the current date advances, and it equals 10 at and beyond
`post_time + expire` days. -/
theorem claim_C8_expire_monotone :
    (∀ P E D₁ D₂ : ℤ, D₁ ≤ D₂ →
      Timer.calculateExpireScore D₁ P E ≤ Timer.calculateExpireScore D₂ P E) ∧
    (∀ P E D : ℤ, P + E ≤ D → Timer.calculateExpireScore D P E = 10) := by
  constructor
  · intro P E D₁ D₂ h
    by_cases h2 : P + E ≤ D₂
    · have h10 : Timer.calculateExpireScore D₂ P E = 10 := by
        simp only [Timer.calculateExpireScore]
        rw [if_pos h2]
      rw [h10]
      exact Timer.expireScore_le_ten _ _ _
    · have h1 : ¬ (P + E ≤ D₁) := by omega
      simp only [Timer.calculateExpireScore, if_neg h1, if_neg h2]
      apply Timer.expireScoreOfPct_mono
      by_cases hE : 0 < E
      · simp only [if_pos hE]
        have hEq : (0 : ℚ) < (E : ℚ) := by exact_mod_cast hE
        have hD : ((D₁ - P : ℤ) : ℚ) ≤ ((D₂ - P : ℤ) : ℚ) :=
          (Int.cast_le).mpr (by omega)
        gcongr
      · simp only [if_neg hE]
        exact le_refl _
  · intro P E D h
    simp only [Timer.calculateExpireScore]
    rw [if_pos h]

/-- Witness for C8 at concrete inputs. -/
theorem claim_C8_expire_monotone_witness :
    Timer.calculateExpireScore 1 0 10 ≤ Timer.calculateExpireScore 2 0 10 ∧
    Timer.calculateExpireScore 9 0 5 = 10 :=
  ⟨claim_C8_expire_monotone.1 0 10 1 2 (by norm_num),
   claim_C8_expire_monotone.2 0 5 9 (by norm_num)⟩

namespace Timer

theorem thresholdChain_cons_neg {p t : ℚ} {v d : ℤ} {rest : List (ℚ × ℤ)}
    (h : ¬ t ≤ p) :
    thresholdChain p ((t, v) :: rest) d = thresholdChain p rest d := by
  simp only [thresholdChain, if_neg h]

theorem expireScoreOfPct_le_nine {p : ℚ} (h : p < 90) :
    expireScoreOfPct p ≤ 9 := by
  have e1 : expireThresholds =
      (90, 10) :: [(80, 9), (70, 8), (60, 7), (50, 6), (40, 5), (30, 4), (20, 3), (10, 2)] := rfl
  rw [expireScoreOfPct_eq_chain, e1, thresholdChain_cons_neg (not_le.mpr h)]
  exact thresholdChain_le_bound _ _ _ 9 (by norm_num) (by decide)

end Timer

/-- C7 counterexample: a row with `expire = 0` and current date equal to
`post_time` gets time-expire 1, not 10, because `record['expire'] or 3`
replaces 0 by 3. -/
theorem claim_C7_counterexample :
    Timer.processExpireScore 0 0 (some 0) = 1 ∧
    Timer.processExpireScore 0 0 (some 0) ≠ 10 := by
  norm_num [Timer.processExpireScore, Timer.calculateExpireScore,
    Timer.expireScoreOfPct, pyOrInt]

/-- C7 amended: a row with `expire = 0` is treated as having `expire = 3`
(the Python `or` default in `_process_single_record`), so its time-expire
score is 10 exactly when the current date is at least `post_time + 3`. -/
theorem claim_C7_expire_zero_as_three (P D : ℤ) :
    Timer.processExpireScore D P (some 0) = 10 ↔ P + 3 ≤ D := by
  have h3 : pyOrInt (some 0) 3 = 3 := by norm_num [pyOrInt]
  simp only [Timer.processExpireScore, h3, Timer.calculateExpireScore]
  by_cases h : P + 3 ≤ D
  · exact iff_of_true (by rw [if_pos h]) h
  · rw [if_neg h, if_pos (by norm_num : (0:ℤ) < 3)]
    constructor
    · intro h10
      have hpctlt : ((D - P : ℤ) : ℚ) / ((3 : ℤ) : ℚ) * 100 < 90 := by
        have hD2 : ((D - P : ℤ) : ℚ) ≤ 2 := by
          exact_mod_cast (by omega : (D - P : ℤ) ≤ 2)
        push_cast at hD2 ⊢
        linarith
      have h9 := Timer.expireScoreOfPct_le_nine hpctlt
      omega
    · intro hc
      exact absurd hc h

/-- Witness for the amended C7 theorem at a concrete input. -/
theorem claim_C7_expire_zero_as_three_witness :
    Timer.processExpireScore 3 0 (some 0) = 10 :=
  (claim_C7_expire_zero_as_three 0 3).mpr (by norm_num)

/-- C6: a row whose `best_times` is exactly the target hour gets
`time-best >= 10 - entropy_penalty`: the circular distance is 0, the base
score is 10 plus a non-negative rarity bonus clamped back to 10, and only
the entropy penalty can reduce the final value. -/
theorem claim_C6_target_hour_floor (t p : ℤ) (rar : ℤ → ℚ)
    (ht0 : 0 ≤ t) (ht23 : t ≤ 23) (hrar : 0 ≤ rar t) :
    10 - p ≤ Timer.timeBestScore t [t] rar p := by
  have hfold : Timer.foldMinDist t [t] = some (0, t) := by
    have hd : Timer.circularDist t t = 0 := by
      simp [Timer.circularDist]
    simp [Timer.foldMinDist, hd, ht0, ht23]
  have hbase : Timer.calculateBaseBestTimeScore t [t] rar = 10 := by
    simp only [Timer.calculateBaseBestTimeScore, hfold]
    rw [if_neg (by simp : ¬([t] : List ℤ) = [])]
    have hcast : ((max 1 (10 - 0) : ℤ) : ℚ) = 10 := by norm_num
    rw [hcast]
    rw [min_eq_left (by linarith : (10:ℚ) ≤ 10 + rar t * 3)]
    rw [max_eq_right (by norm_num : (1:ℚ) ≤ (10:ℚ))]
    norm_num [pyRound]
  rw [Timer.timeBestScore, hbase]
  exact le_max_right _ _

/-- Witness for C6 at a concrete input. -/
theorem claim_C6_target_hour_floor_witness :
    10 - 2 ≤ Timer.timeBestScore 9 [9] (fun _ => 1/2) 2 :=
  claim_C6_target_hour_floor 9 2 (fun _ => 1/2)
    (by norm_num) (by norm_num) (by norm_num)

namespace Calculator

theorem sum_map_mul_of_fst_eq (s : ℚ) :
    ∀ l : List (ℚ × ℚ), (∀ q ∈ l, q.1 = s) →
      ((l.map (fun q => q.1 * q.2)).sum) = s * ((l.map (fun q => q.2)).sum) := by
  intro l
  induction l with
  | nil => intro _; simp
  | cons q rest ih =>
    intro h
    have hq : q.1 = s := h q (List.mem_cons_self _ _)
    have hrest := ih (fun p hp => h p (List.mem_cons_of_mem _ hp))
    simp only [List.map_cons, List.sum_cons, hrest, hq]
    ring

theorem valid_invalid_partition :
    ∀ pairs : List (Option ℚ × ℚ),
      ((validPairs pairs).map (fun q => q.2)).sum + invalidWeight pairs =
        (pairs.map (fun p => p.2)).sum := by
  intro pairs
  induction pairs with
  | nil => simp [validPairs, invalidWeight]
  | cons p rest ih =>
    obtain ⟨a, w⟩ := p
    cases a with
    | none =>
      simp only [validPairs, invalidWeight, isValidScore, List.filterMap_cons,
        List.filter_cons, List.map_cons, List.sum_cons] at ih ⊢
      simp only [Bool.not_false, if_true]
      simp only [List.map_cons, List.sum_cons]
      linarith [ih]
    | some v =>
      by_cases hv : 0 < v
      · simp only [validPairs, invalidWeight, isValidScore, List.filterMap_cons,
          List.filter_cons, List.map_cons, List.sum_cons] at ih ⊢
        rw [if_pos hv]
        simp only [decide_eq_true hv, Bool.not_true, Bool.false_eq_true, if_false,
          List.map_cons, List.sum_cons]
        linarith [ih]
      · simp only [validPairs, invalidWeight, isValidScore, List.filterMap_cons,
          List.filter_cons, List.map_cons, List.sum_cons] at ih ⊢
        rw [if_neg hv]
        have hd : decide (0 < v) = false := decide_eq_false hv
        simp only [hd, Bool.not_false, if_true, List.map_cons, List.sum_cons]
        linarith [ih]

theorem adjusted_weight_sum (c : ℚ) :
    ∀ l : List (ℚ × ℚ),
      ((l.map (fun q => (q.1, q.2 + c))).map (fun q => q.2)).sum =
        (l.map (fun q => q.2)).sum + l.length * c := by
  intro l
  induction l with
  | nil => simp
  | cons q rest ih =>
    simp only [List.map_cons, List.sum_cons, List.length_cons, ih]
    push_cast
    ring

theorem pairs_snd_pos (r : ScoreRecord) :
    ∀ p ∈ (scoresOf r).zip weights, 0 < p.2 := by
  intro p hp
  have hw : p.2 ∈ weights := (List.of_mem_zip hp).2
  simp only [weights, List.mem_cons, List.not_mem_nil, or_false] at hw
  rcases hw with h | h | h | h | h | h | h <;> rw [h] <;> norm_num

theorem invalidWeight_nonneg (r : ScoreRecord) :
    0 ≤ invalidWeight ((scoresOf r).zip weights) := by
  apply List.sum_nonneg
  intro x hx
  obtain ⟨p, hp, rfl⟩ := List.mem_map.mp hx
  exact le_of_lt (pairs_snd_pos r p (List.mem_of_mem_filter hp))

theorem pairs_snd_eq_weights (r : ScoreRecord) :
    ((scoresOf r).zip weights).map (fun p => p.2) = weights := rfl

end Calculator

/-- C4: if every valid dimension score of a record equals the same value s
(with 1 <= s <= 10 representable at two decimals), the Aggregator's final
score is exactly s, whether all seven dimensions are valid or the weight of
the invalid ones is redistributed over the valid ones. -/
theorem claim_C4_equal_valid_scores (r : Calculator.ScoreRecord) (s : ℚ)
    (hall : ∀ q ∈ Calculator.validPairs ((Calculator.scoresOf r).zip Calculator.weights), q.1 = s)
    (hne : Calculator.validPairs ((Calculator.scoresOf r).zip Calculator.weights) ≠ [])
    (h1 : 1 ≤ s) (h10 : s ≤ 10) (hr : pyRound2 s = s) :
    Calculator.calculateScore r = s := by
  have hwsum : (((Calculator.scoresOf r).zip Calculator.weights).map (fun p => p.2)).sum = 1 := by
    rw [Calculator.pairs_snd_eq_weights]
    norm_num [Calculator.weights]
  have hpart := Calculator.valid_invalid_partition ((Calculator.scoresOf r).zip Calculator.weights)
  simp only [Calculator.calculateScore]
  rw [if_neg hne]
  set pairs := (Calculator.scoresOf r).zip Calculator.weights with hpairs
  set V := Calculator.validPairs pairs with hV
  set invW := Calculator.invalidWeight pairs with hinvW
  by_cases hpos : 0 < invW
  · rw [if_pos hpos]
    set adj := V.map (fun q => (q.1, q.2 + invW / (V.length : ℚ))) with hadj
    have hlen : (V.length : ℚ) ≠ 0 := by
      have h0 : V.length ≠ 0 := fun hh => hne (List.eq_nil_of_length_eq_zero hh)
      exact_mod_cast h0
    have htw : (adj.map (fun q => q.2)).sum = 1 := by
      rw [hadj, Calculator.adjusted_weight_sum]
      have hmul : (V.length : ℚ) * (invW / (V.length : ℚ)) = invW := by
        field_simp
      rw [hmul]
      linarith [hpart, hwsum]
    have hfst : ∀ q ∈ adj, q.1 = s := by
      intro q hq
      obtain ⟨p, hp, rfl⟩ := List.mem_map.mp hq
      exact hall p hp
    have hts : (adj.map (fun q => q.1 * q.2)).sum = s := by
      rw [Calculator.sum_map_mul_of_fst_eq s adj hfst, htw, mul_one]
    rw [htw, hts]
    rw [if_pos (by norm_num : (0:ℚ) < 1)]
    rw [div_one]
    rw [if_neg (not_lt.mpr h1), if_neg (not_lt.mpr h10)]
    exact hr
  · rw [if_neg hpos]
    have h0 : invW = 0 := le_antisymm (not_lt.mp hpos) (by rw [hinvW, hpairs]; exact Calculator.invalidWeight_nonneg r)
    have htw : (V.map (fun q => q.2)).sum = 1 := by
      linarith [hpart, hwsum, h0]
    have hts : (V.map (fun q => q.1 * q.2)).sum = s := by
      rw [Calculator.sum_map_mul_of_fst_eq s V hall, htw, mul_one]
    rw [htw, hts]
    rw [if_pos (by norm_num : (0:ℚ) < 1)]
    rw [div_one]
    rw [if_neg (not_lt.mpr h1), if_neg (not_lt.mpr h10)]
    exact hr

/-- Witness for C4: all seven dimensions 8 and, separately via the main
theorem, the mt-author sentinel case from the spec's scenario 3. -/
theorem claim_C4_equal_valid_scores_witness :
    Calculator.calculateScore ⟨some 10, some 10, some 10, some 10, some (-1), some 10, some 10⟩ = 10 :=
  claim_C4_equal_valid_scores _ 10 (by decide) (by decide)
    (by norm_num) (by norm_num) (by norm_num [pyRound2, pyRound])


/-- C3 counterexample: with last publication today 20:00 UTC (unix
1728072000), length 600, PER_HOUR 300 and env MIN = 9, MAX = 21, the planner
returns tomorrow 06:00 UTC (1728108000, hour 6), not tomorrow 09:00 UTC
(1728118800, hour 9), because the module converts the window to UTC as
MIN-3 = 6 and MAX-3 = 18. -/
theorem claim_C3_counterexample :
    Planner.calculateNextFromLast 1728072000 (some 600) = (1728108000, 6) ∧
    Planner.calculateNextFromLast 1728072000 (some 600) ≠ (1728118800, 9) := by
  have h : Planner.calculateNextFromLast 1728072000 (some 600) = (1728108000, 6) := by
    norm_num [Planner.calculateNextFromLast, Planner.getUtcHourFromUnix,
      Planner.createUtcTimeForDatetime, Planner.combineTimestamp,
      Planner.dateOfTimestamp, Planner.MIN_HOUR_UTC, Planner.MAX_HOUR_UTC,
      Planner.MIN_HOUR_MSK, Planner.MAX_HOUR_MSK, Planner.PER_HOUR,
      pyOrInt, pyInt]
  refine ⟨h, ?_⟩
  rw [h]
  decide

/-- C3 amended: the planner snaps the raw candidate into the UTC window
`[MIN-3, MAX-3] = [6, 18]`: the target hour always lands in that window, the
raw time is kept when its hour already lies in the window, and the spec's
rollover example yields tomorrow 06:00 UTC rather than 09:00. -/
theorem claim_C3_window_snap :
    (∀ last len, Planner.MIN_HOUR_UTC ≤ (Planner.calculateNextFromLast last len).2 ∧
      (Planner.calculateNextFromLast last len).2 ≤ Planner.MAX_HOUR_UTC) ∧
    (∀ last len raw,
      raw = last + pyInt (((pyOrInt len 300 : ℤ) : ℚ) / ((Planner.PER_HOUR : ℤ) : ℚ) * 3600) →
      Planner.MIN_HOUR_UTC ≤ Planner.getUtcHourFromUnix raw →
      Planner.getUtcHourFromUnix raw ≤ Planner.MAX_HOUR_UTC →
      Planner.calculateNextFromLast last len = (raw, Planner.getUtcHourFromUnix raw)) ∧
    Planner.calculateNextFromLast 1728072000 (some 600) = (1728108000, 6) := by
  refine ⟨?_, ?_, ?_⟩
  · intro last len
    simp only [Planner.calculateNextFromLast, Planner.createUtcTimeForDatetime,
      Planner.combineTimestamp, Planner.dateOfTimestamp, Planner.getUtcHourFromUnix,
      Planner.MIN_HOUR_UTC, Planner.MAX_HOUR_UTC, Planner.MIN_HOUR_MSK,
      Planner.MAX_HOUR_MSK]
    split_ifs with h1 h2 <;> omega
  · intro last len raw hraw h1 h2
    subst hraw
    simp only [Planner.calculateNextFromLast]
    rw [if_pos ⟨h1, h2⟩]
  · norm_num [Planner.calculateNextFromLast, Planner.getUtcHourFromUnix,
      Planner.createUtcTimeForDatetime, Planner.combineTimestamp,
      Planner.dateOfTimestamp, Planner.MIN_HOUR_UTC, Planner.MAX_HOUR_UTC,
      Planner.MIN_HOUR_MSK, Planner.MAX_HOUR_MSK, Planner.PER_HOUR,
      pyOrInt, pyInt]

/-- Witness for the amended C3 theorem: the kept-in-window case at a
concrete input (10:00 UTC plus one hour stays at 11:00 UTC). -/
theorem claim_C3_window_snap_witness :
    Planner.calculateNextFromLast 1728036000 (some 300) = (1728039600, 11) := by
  have h : (1728039600 : ℤ) =
      1728036000 + pyInt (((pyOrInt (some 300) 300 : ℤ) : ℚ) / ((Planner.PER_HOUR : ℤ) : ℚ) * 3600) := by
    norm_num [pyOrInt, pyInt, Planner.PER_HOUR]
  have h11 : Planner.getUtcHourFromUnix 1728039600 = 11 := by decide
  have := claim_C3_window_snap.2.1 1728036000 (some 300) 1728039600 h
    (by rw [h11]; decide) (by rw [h11]; decide)
  rw [this, h11]

namespace Planner

theorem selectFold_mem :
    ∀ (l : List EditorRow) (acc : Option EditorRow) (b : EditorRow),
      (l.foldl (fun acc r =>
        match acc with
        | none => some r
        | some c => if rowBefore r c then some r else some c) acc) = some b →
      acc = some b ∨ b ∈ l := by
  intro l
  induction l with
  | nil =>
    intro acc b h
    exact Or.inl h
  | cons r t ih =>
    intro acc b h
    rw [List.foldl_cons] at h
    rcases ih _ b h with hstep | hmem
    · cases acc with
      | none =>
        simp only at hstep
        exact Or.inr (by rw [← Option.some_inj.mp hstep]; exact List.mem_cons_self _ _)
      | some c =>
        simp only at hstep
        by_cases hb : rowBefore r c
        · rw [if_pos hb] at hstep
          exact Or.inr (by rw [← Option.some_inj.mp hstep]; exact List.mem_cons_self _ _)
        · rw [if_neg hb] at hstep
          exact Or.inl hstep
    · exact Or.inr (List.mem_cons_of_mem _ hmem)

theorem selectBestRecord_mem {editor : List EditorRow} {bestId : ℤ}
    (h : selectBestRecord editor = some bestId) :
    ∃ b ∈ editor, b.id = bestId ∧ b.analyzed = true ∧ b.final_score.isSome = true := by
  simp only [selectBestRecord] at h
  rcases Option.map_eq_some'.mp h with ⟨b, hb, hid⟩
  rcases selectFold_mem _ none b hb with hacc | hmem
  · cases hacc
  · rcases List.mem_filter.mp hmem with ⟨hmem2, hflags⟩
    simp only [Bool.and_eq_true] at hflags
    exact ⟨b, hmem2, hid, hflags.1, hflags.2⟩

theorem length_filter_ne_id :
    ∀ (l : List EditorRow) (k : ℤ), (l.map (fun r => r.id)).Nodup →
      (∃ x ∈ l, x.id = k) →
      (l.filter (fun r => ! (r.id == k))).length + 1 = l.length := by
  intro l
  induction l with
  | nil =>
    rintro k _ ⟨x, hx, _⟩
    cases hx
  | cons q t ih =>
    rintro k hnd ⟨x, hx, hxk⟩
    rw [List.map_cons, List.nodup_cons] at hnd
    rcases List.mem_cons.mp hx with rfl | hxt
    · rw [List.filter_cons, if_neg (by simp [hxk])]
      have htail : t.filter (fun r => ! (r.id == k)) = t := by
        apply List.filter_eq_self.mpr
        intro a ha
        have hne : a.id ≠ k := by
          intro he
          exact hnd.1 (hxk ▸ he ▸ List.mem_map_of_mem (fun r => r.id) ha)
        simp [hne]
      rw [htail, List.length_cons]
    · have hqk : q.id ≠ k := by
        intro he
        exact hnd.1 (he ▸ hxk ▸ List.mem_map_of_mem (fun r => r.id) hxt)
      rw [List.filter_cons, if_pos (by simp [hqk])]
      have := ih k hnd.2 ⟨x, hxt, hxk⟩
      simp only [List.length_cons]
      omega

theorem countNext_map_flip (m : ℤ) :
    ∀ (l : List PublishedRow), (l.map (fun p => p.id)).Nodup →
      ∀ p ∈ l, p.id = m → p.next = false →
      countNextTrue (l.map (fun q => if q.id == m then { q with next := true } else q)) =
        countNextTrue l + 1 := by
  intro l
  induction l with
  | nil =>
    intro _ p hp
    cases hp
  | cons q t ih =>
    intro hnd p hp hpm hpnext
    rw [List.map_cons, List.nodup_cons] at hnd
    rcases List.mem_cons.mp hp with rfl | hpt
    · have hqm : (p.id == m) = true := by simp [hpm]
      have htail : t.map (fun q => if q.id == m then { q with next := true } else q) = t := by
        have hcong : ∀ a ∈ t, (if a.id == m then { a with next := true } else a) = id a := by
          intro a ha
          have hne : a.id ≠ m := by
            intro he
            exact hnd.1 (hpm ▸ he ▸ List.mem_map_of_mem (fun r => r.id) ha)
          simp [hne]
        rw [List.map_congr_left hcong, List.map_id]
      rw [List.map_cons, htail, if_pos hqm]
      simp only [countNextTrue, List.filter_cons, hpnext]
      simp
    · have hqm : q.id ≠ m := by
        intro he
        exact hnd.1 (he ▸ hpm ▸ List.mem_map_of_mem (fun r => r.id) hpt)
      rw [List.map_cons, if_neg (by simp [hqm])]
      have hrec := ih hnd.2 p hpt hpm hpnext
      simp only [countNextTrue] at hrec ⊢
      rw [List.filter_cons, List.filter_cons]
      cases hq : q.next
      · rw [if_neg (by simp [hq]), if_neg (by simp [hq])]
        exact hrec
      · rw [if_pos (by simp [hq]), if_pos (by simp [hq])]
        simp only [List.length_cons]
        omega

theorem countNext_setNextTrue {l : List PublishedRow}
    (hnd : (l.map (fun p => p.id)).Nodup)
    {p : PublishedRow} (hp : maxIdRow l = some p) (hnext : p.next = false) :
    countNextTrue (setNextTrue l) = countNextTrue l + 1 := by
  unfold maxIdRow at hp
  unfold setNextTrue
  cases hm : (l.map (fun p => p.id)).max? with
  | none =>
    rw [hm] at hp
    exact absurd hp (by simp)
  | some m =>
    rw [hm] at hp
    have hp2 : l.find? (fun p => p.id == m) = some p := hp
    have hpm : p.id = m := by simpa using List.find?_some hp2
    exact countNext_map_flip m l hnd p (List.mem_of_find?_eq_some hp2) hpm hnext

theorem setNextTrue_length (l : List PublishedRow) :
    (setNextTrue l).length = l.length := by
  unfold setNextTrue
  cases (l.map (fun p => p.id)).max? with
  | none => rfl
  | some m => exact List.length_map _ _

theorem maxIdRow_eq_none {l : List PublishedRow} (h : maxIdRow l = none) :
    l = [] := by
  unfold maxIdRow at h
  cases hm : (l.map (fun p => p.id)).max? with
  | none =>
    have := List.max?_eq_none_iff.mp hm
    exact List.map_eq_nil_iff.mp this
  | some m =>
    exfalso
    rw [hm] at h
    have h2 : l.find? (fun p => p.id == m) = none := h
    have hmem : m ∈ l.map (fun p => p.id) := List.max?_mem (fun a b => max_choice a b) hm
    rcases List.mem_map.mp hmem with ⟨p, hp, hpm⟩
    have := List.find?_eq_none.mp h2 p hp
    simp [hpm] at this

theorem resetEditorFlags_ids (l : List EditorRow) :
    (resetEditorFlags l).map (fun r => r.id) = l.map (fun r => r.id) := by
  rw [resetEditorFlags, List.map_map]
  rfl

end Planner

/-- C1 amended: every successful round removes exactly the selected winner
from `editor`, appends exactly one `to_publish` row carrying the winner's
payload and the computed time, keeps the number of `published` rows, and
flips `next` from false to true on exactly one `published` row when
`published` is non-empty — and on none when it is empty. -/
theorem claim_C1_round_effects (nowUnix : ℤ)
    (scoring : List Planner.EditorRow → List Planner.EditorRow)
    (s s' : Planner.PlannerState)
    (hids : ∀ l, (scoring l).map (fun r => r.id) = l.map (fun r => r.id))
    (hndE : (s.editor.map (fun r => r.id)).Nodup)
    (hndP : (s.published.map (fun p => p.id)).Nodup)
    (hrun : Planner.runRound nowUnix scoring s = some s') :
    ∃ bestId row,
      Planner.selectBestRecord (scoring (Planner.resetEditorFlags s.editor)) = some bestId ∧
      (scoring (Planner.resetEditorFlags s.editor)).find? (fun r => r.id == bestId) = some row ∧
      s'.toPublish = s.toPublish ++
        [{ payload := row.payload, time := (Planner.calculateNextPublishTime nowUnix s).1,
           final_score := row.final_score }] ∧
      s'.editor.length + 1 = s.editor.length ∧
      (∀ r ∈ s'.editor, r.id ≠ bestId) ∧
      s'.published.length = s.published.length ∧
      Planner.countNextTrue s'.published =
        Planner.countNextTrue s.published + (if s.published = [] then 0 else 1) := by
  by_cases hshould : Planner.shouldRunPlanning s = true
  · simp only [Planner.runRound, hshould, Bool.not_true, Bool.false_eq_true, if_false] at hrun
    cases hsel : Planner.selectBestRecord (scoring (Planner.resetEditorFlags s.editor)) with
    | none =>
      rw [hsel] at hrun
      cases hrun
    | some bestId =>
      rw [hsel] at hrun
      obtain ⟨b, hbmem, hbid, hban, hbsome⟩ := Planner.selectBestRecord_mem hsel
      have hfindsome : ((scoring (Planner.resetEditorFlags s.editor)).find?
          (fun r => r.id == bestId)).isSome := by
        apply List.find?_isSome.mpr
        exact ⟨b, hbmem, by simp [hbid]⟩
      obtain ⟨row, hfind⟩ := Option.isSome_iff_exists.mp hfindsome
      simp only [Planner.moveToPublish, hfind] at hrun
      have hs' := Option.some_inj.mp hrun
      subst hs'
      have hidsc : (scoring (Planner.resetEditorFlags s.editor)).map (fun r => r.id) =
          s.editor.map (fun r => r.id) := by
        rw [hids, Planner.resetEditorFlags_ids]
      have hndSc : ((scoring (Planner.resetEditorFlags s.editor)).map (fun r => r.id)).Nodup := by
        rw [hidsc]; exact hndE
      have hrowmem : row ∈ scoring (Planner.resetEditorFlags s.editor) :=
        List.mem_of_find?_eq_some hfind
      have hrowid : row.id = bestId := by simpa using List.find?_some hfind
      refine ⟨bestId, row, rfl, hfind, rfl, ?_, ?_, ?_, ?_⟩
      · have hflen := Planner.length_filter_ne_id (scoring (Planner.resetEditorFlags s.editor))
          bestId hndSc ⟨row, hrowmem, hrowid⟩
        have hleneq : (scoring (Planner.resetEditorFlags s.editor)).length = s.editor.length := by
          have := congrArg List.length hidsc
          simpa using this
        simpa [hleneq] using hflen
      · intro r hr
        have := (List.mem_filter.mp hr).2
        simpa using this
      · exact Planner.setNextTrue_length _
      · by_cases hemp : s.published = []
        · simp [hemp, Planner.setNextTrue, Planner.countNextTrue]
        · rw [if_neg hemp]
          cases hmax : Planner.maxIdRow s.published with
          | none => exact absurd (Planner.maxIdRow_eq_none hmax) hemp
          | some p =>
            have hnext : p.next = false := by
              simp only [Planner.shouldRunPlanning, hmax] at hshould
              simpa using hshould
            exact Planner.countNext_setNextTrue hndP hmax hnext
  · exfalso
    have hfalse : Planner.shouldRunPlanning s = false := by
      simpa using hshould
    simp [Planner.runRound, hfalse] at hrun

/-- C1 counterexample: on an empty `published` table (first run) a round
succeeds — one row moves from `editor` to `to_publish` — yet no `published`
row flips `next` from false to true, because there is no `published` row at
all; the claim's "exactly one flip per successful round" fails. -/
theorem claim_C1_counterexample :
    Planner.runRound 0 Planner.exampleScoring Planner.exampleState =
      some Planner.exampleResult ∧
    Planner.exampleState.published = [] ∧
    Planner.exampleResult.published = [] ∧
    Planner.exampleResult.toPublish.length = Planner.exampleState.toPublish.length + 1 := by
  refine ⟨?_, rfl, rfl, rfl⟩
  decide

/-- Witness for the amended C1 theorem on the concrete example state. -/
theorem claim_C1_round_effects_witness :
    Planner.exampleResult.editor.length + 1 = Planner.exampleState.editor.length ∧
    Planner.countNextTrue Planner.exampleResult.published =
      Planner.countNextTrue Planner.exampleState.published +
        (if Planner.exampleState.published = [] then 0 else 1) := by
  obtain ⟨bid, row, -, -, -, h4, -, -, h7⟩ :=
    claim_C1_round_effects 0 Planner.exampleScoring Planner.exampleState Planner.exampleResult
      (by intro l; rw [Planner.exampleScoring, List.map_map]; rfl)
      (by decide) (by decide) (by decide)
  exact ⟨h4, h7⟩

/-- C2 counterexample: `_move_to_publish` runs its INSERT and DELETE as two
separately committed statements (no transaction), so a failure between them
leaves the winner visible in both tables at once. -/
theorem claim_C2_counterexample :
    (Planner.moveToPublishPartial Planner.exampleMoveState 1 1700000000 1).toPublish =
      [{ payload := Planner.exampleEditorRow.payload, time := 1700000000,
         final_score := some 8 }] ∧
    Planner.examplePreparedRow ∈
      (Planner.moveToPublishPartial Planner.exampleMoveState 1 1700000000 1).editor := by
  decide

/-- C2 amended: the INSERT and the DELETE of `_move_to_publish` are two
sequential auto-committed statements; interrupting after 0 statements leaves
the state unchanged, after 1 the winner exists in both tables, after 2 the
winner has moved; the winner is never in neither table, and completing both
statements coincides with the uninterrupted `_move_to_publish`. -/
theorem claim_C2_partial_move (s : Planner.PlannerState) (rid t : ℤ)
    (row : Planner.EditorRow)
    (hfind : s.editor.find? (fun r => r.id == rid) = some row) :
    Planner.moveToPublishPartial s rid t 0 = s ∧
    ((Planner.moveToPublishPartial s rid t 1).toPublish =
        s.toPublish ++ [{ payload := row.payload, time := t, final_score := row.final_score }] ∧
      (Planner.moveToPublishPartial s rid t 1).editor = s.editor) ∧
    ((Planner.moveToPublishPartial s rid t 2).toPublish =
        s.toPublish ++ [{ payload := row.payload, time := t, final_score := row.final_score }] ∧
      (∀ r ∈ (Planner.moveToPublishPartial s rid t 2).editor, r.id ≠ rid)) ∧
    Planner.moveToPublishPartial s rid t 2 = Planner.moveToPublish s rid t := by
  simp only [Planner.moveToPublishPartial, Planner.moveToPublishStatements, hfind,
    Planner.applyCommitted, Planner.moveToPublish]
  refine ⟨rfl, ⟨rfl, rfl⟩, ⟨rfl, ?_⟩, rfl⟩
  intro r hr
  simp only [List.take, List.foldl] at hr
  have := (List.mem_filter.mp hr).2
  simpa using this

/-- Witness for the amended C2 theorem on the concrete example state. -/
theorem claim_C2_partial_move_witness :
    Planner.moveToPublishPartial Planner.exampleMoveState 1 1700000000 0 =
      Planner.exampleMoveState ∧
    Planner.moveToPublishPartial Planner.exampleMoveState 1 1700000000 2 =
      Planner.moveToPublish Planner.exampleMoveState 1 1700000000 := by
  obtain ⟨h0, -, -, h2⟩ :=
    claim_C2_partial_move Planner.exampleMoveState 1 1700000000
      Planner.examplePreparedRow (by decide)
  exact ⟨h0, h2⟩

namespace Publisher

theorem publishLoop_preserves (now : ℤ) (sendOK : PubRow → Bool) (total : ℕ) :
    ∀ (l : List (ℕ × PubRow)) (st : PublisherState) (x : PubRow),
      x ∈ st.toPublish → (∀ iq ∈ l, (Prod.snd iq).id ≠ x.id) →
      x ∈ (publishLoop now sendOK total l st).toPublish := by
  intro l
  induction l with
  | nil =>
    intro st x hx _
    exact hx
  | cons iq rest ih =>
    intro st x hx hne
    obtain ⟨i, q⟩ := iq
    simp only [publishLoop]
    by_cases hok : sendOK q = true
    · rw [if_pos hok]
      apply ih
      · have hqx : q.id ≠ x.id := hne (i, q) (List.mem_cons_self _ _)
        have hfx : (fun r => if r.id == q.id then { r with published := true } else r) x = x := by
          simp [Ne.symm hqx]
        have hmem2 := List.mem_map_of_mem
          (fun r => if r.id == q.id then { r with published := true } else r) hx
        rw [hfx] at hmem2
        simpa [markAsPublished, copyToPublished] using hmem2
      · intro p hp
        exact hne p (List.mem_cons_of_mem _ hp)
    · rw [if_neg hok]
      exact hx

theorem publishLoop_published_origin (now : ℤ) (sendOK : PubRow → Bool) (total : ℕ) :
    ∀ (l : List (ℕ × PubRow)) (st : PublisherState),
      ∀ p ∈ (publishLoop now sendOK total l st).published,
        p ∈ st.published ∨
        ∃ q, (∃ i, (i, q) ∈ l) ∧ ∃ b : Bool, p = mkPublishedRec now q b := by
  intro l
  induction l with
  | nil =>
    intro st p hp
    exact Or.inl hp
  | cons iq rest ih =>
    intro st p hp
    obtain ⟨i, q⟩ := iq
    simp only [publishLoop] at hp
    by_cases hok : sendOK q = true
    · rw [if_pos hok] at hp
      rcases ih _ p hp with hin | ⟨q2, ⟨i2, hi2⟩, b, hb⟩
      · simp only [markAsPublished, copyToPublished] at hin
        rcases List.mem_append.mp hin with hold | hnew
        · exact Or.inl hold
        · rcases List.mem_singleton.mp hnew with rfl
          exact Or.inr ⟨q, ⟨i, List.mem_cons_self _ _⟩, _, rfl⟩
      · exact Or.inr ⟨q2, ⟨i2, List.mem_cons_of_mem _ hi2⟩, b, hb⟩
    · rw [if_neg hok] at hp
      exact Or.inl hp

theorem mem_of_mem_getRecords {now : ℤ} {rows : List PubRow} {q : PubRow}
    (h : q ∈ getRecordsForPublishing now rows) :
    q ∈ rows ∧ eligibleForPublishing now q = true := by
  have h1 := List.take_subset _ _ h
  have h2 := (List.mergeSort_perm (rows.filter (eligibleForPublishing now))
    (fun a b => decide (a.id ≤ b.id))).mem_iff.mp h1
  exact ⟨(List.mem_filter.mp h2).1, (List.mem_filter.mp h2).2⟩

theorem not_eligible_of_short {now : ℤ} {r : PubRow}
    (hbad : shortTextPrepared r = true ∨ shortPicBase64 r = true) :
    eligibleForPublishing now r = false := by
  by_contra hcon
  have hel : eligibleForPublishing now r = true := by
    cases he : eligibleForPublishing now r
    · exact absurd he hcon
    · rfl
  unfold eligibleForPublishing at hel
  rcases hbad with h | h
  · unfold shortTextPrepared at h
    cases htp : r.text_prepared with
    | none =>
      rw [htp] at hel
      simp at hel
    | some s =>
      rw [htp] at h hel
      simp only [decide_eq_true_eq] at h
      simp only [Bool.and_eq_true, decide_eq_true_eq] at hel
      omega
  · unfold shortPicBase64 at h
    cases hpb : r.picBase64 with
    | none =>
      rw [hpb] at hel
      simp at hel
    | some s =>
      rw [hpb] at h hel
      simp only [decide_eq_true_eq] at h
      simp only [Bool.and_eq_true, decide_eq_true_eq] at hel
      omega

end Publisher

/-- C9: the Publisher never dispatches a `to_publish` row whose
`text_prepared` is NULL or at most 10 characters or whose `pic-base64` is
NULL or at most 100 characters: such a row is never fetched by
`_get_records_for_publishing`, survives the tick unchanged in `to_publish`
(so its `published` flag is never set), and every row the tick adds to
`published` originates from a fetched (hence well-formed) record. -/
theorem claim_C9_no_short_dispatch (now : ℤ) (sendOK : Publisher.PubRow → Bool)
    (st : Publisher.PublisherState) (r : Publisher.PubRow)
    (hmem : r ∈ st.toPublish)
    (hbad : Publisher.shortTextPrepared r = true ∨ Publisher.shortPicBase64 r = true)
    (hnd : (st.toPublish.map (fun q => q.id)).Nodup) :
    r ∉ Publisher.getRecordsForPublishing now st.toPublish ∧
    r ∈ (Publisher.checkAndPublish now sendOK st).toPublish ∧
    (∀ p ∈ (Publisher.checkAndPublish now sendOK st).published,
      p ∈ st.published ∨
      ∃ q ∈ Publisher.getRecordsForPublishing now st.toPublish, ∃ b : Bool,
        p = Publisher.mkPublishedRec now q b) := by
  have hnotrec : r ∉ Publisher.getRecordsForPublishing now st.toPublish := by
    intro hin
    have := (Publisher.mem_of_mem_getRecords hin).2
    rw [Publisher.not_eligible_of_short hbad] at this
    cases this
  refine ⟨hnotrec, ?_, ?_⟩
  · apply Publisher.publishLoop_preserves now sendOK _ _ st r hmem
    intro iq hiq
    have hq : iq.2 ∈ Publisher.getRecordsForPublishing now st.toPublish :=
      List.snd_mem_of_mem_enumFrom (List.enum_eq_enumFrom ▸ hiq)
    intro hideq
    have hqmem : iq.2 ∈ st.toPublish := (Publisher.mem_of_mem_getRecords hq).1
    have : iq.2 = r := List.inj_on_of_nodup_map hnd hqmem hmem hideq
    exact hnotrec (this ▸ hq)
  · intro p hp
    rcases Publisher.publishLoop_published_origin now sendOK _ _ st p hp with hold | ⟨q, ⟨i, hiq⟩, b, hb⟩
    · exact Or.inl hold
    · refine Or.inr ⟨q, ?_, b, hb⟩
      exact List.snd_mem_of_mem_enumFrom (List.enum_eq_enumFrom ▸ hiq)

/-- Witness for C9: a concrete state with one fully flagged row whose
`text_prepared` is only five characters long. -/
theorem claim_C9_no_short_dispatch_witness :
    Publisher.exampleBadRow ∉
      Publisher.getRecordsForPublishing 100 Publisher.exampleBadState.toPublish ∧
    Publisher.exampleBadRow ∈
      (Publisher.checkAndPublish 100 (fun _ => true) Publisher.exampleBadState).toPublish := by
  obtain ⟨h1, h2, -⟩ :=
    claim_C9_no_short_dispatch 100 (fun _ => true) Publisher.exampleBadState
      Publisher.exampleBadRow (by simp [Publisher.exampleBadState])
      (Or.inl rfl) (by simp [Publisher.exampleBadState])
  exact ⟨h1, h2⟩

namespace Preparator

theorem setPrepareOnly_ids (st : PrepState) (k : ℤ) :
    (setPrepareOnly st k).toPublish.map (fun r => r.id) =
      st.toPublish.map (fun r => r.id) := by
  simp only [setPrepareOnly, List.map_map]
  apply List.map_congr_left
  intro a _
  by_cases h : a.id = k <;> simp [h]

theorem updateRecord_ids (st : PrepState) (k : ℤ) (t : String) :
    (updateRecord st k t).toPublish.map (fun r => r.id) =
      st.toPublish.map (fun r => r.id) := by
  simp only [updateRecord, List.map_map]
  apply List.map_congr_left
  intro a _
  by_cases h : a.id = k <;> simp [h]

theorem processOne_cases (st : PrepState) (r : PrepRow) :
    processOne st r = setPrepareOnly st r.id ∨
    ∃ t, processOne st r = updateRecord st r.id t := by
  unfold processOne
  cases r.text with
  | none => exact Or.inl rfl
  | some rawText =>
    dsimp only
    by_cases h1 : rawText.trim = ""
    · rw [if_pos h1]
      exact Or.inl rfl
    · rw [if_neg h1]
      by_cases h2 : (parseText rawText).2 = []
      · rw [if_pos h2]
        exact Or.inl rfl
      · rw [if_neg h2]
        cases hpc : prepareComponents (parseText rawText).1 (parseText rawText).2 with
        | none => exact Or.inl rfl
        | some prepared =>
          dsimp only
          by_cases h3 : prepared ≠ ""
          · rw [if_pos h3]
            exact Or.inr ⟨prepared, rfl⟩
          · rw [if_neg h3]
            exact Or.inl rfl

theorem processOne_ids (st : PrepState) (r : PrepRow) :
    (processOne st r).toPublish.map (fun q => q.id) =
      st.toPublish.map (fun q => q.id) := by
  rcases processOne_cases st r with h | ⟨t, h⟩
  · rw [h, setPrepareOnly_ids]
  · rw [h, updateRecord_ids]

theorem processRecords_ids :
    ∀ (l : List PrepRow) (st : PrepState),
      (processRecords st l).toPublish.map (fun q => q.id) =
        st.toPublish.map (fun q => q.id) := by
  intro l
  induction l with
  | nil => intro st; rfl
  | cons r t ih =>
    intro st
    show (processRecords (processOne st r) t).toPublish.map _ = _
    rw [ih, processOne_ids]

theorem mem_setPrepareOnly_of_ne {st : PrepState} {k : ℤ} {x : PrepRow}
    (hx : x ∈ st.toPublish) (hne : x.id ≠ k) :
    x ∈ (setPrepareOnly st k).toPublish := by
  have hfx : (fun r => if r.id == k then { r with prepare := true } else r) x = x := by
    simp [hne]
  have := List.mem_map_of_mem
    (fun r => if r.id == k then { r with prepare := true } else r) hx
  rw [hfx] at this
  exact this

theorem mem_updateRecord_of_ne {st : PrepState} {k : ℤ} {t : String} {x : PrepRow}
    (hx : x ∈ st.toPublish) (hne : x.id ≠ k) :
    x ∈ (updateRecord st k t).toPublish := by
  have hfx : (fun r => if r.id == k then
      ({ r with text_prepared := some t, prepare := true } : PrepRow) else r) x = x := by
    simp [hne]
  have := List.mem_map_of_mem
    (fun r => if r.id == k then
      ({ r with text_prepared := some t, prepare := true } : PrepRow) else r) hx
  rw [hfx] at this
  exact this

theorem processRecords_mem_of_ne :
    ∀ (l : List PrepRow) (st : PrepState) (x : PrepRow),
      x ∈ st.toPublish → (∀ q ∈ l, q.id ≠ x.id) →
      x ∈ (processRecords st l).toPublish := by
  intro l
  induction l with
  | nil =>
    intro st x hx _
    exact hx
  | cons r t ih =>
    intro st x hx hne
    show x ∈ (processRecords (processOne st r) t).toPublish
    apply ih
    · have hrx : x.id ≠ r.id := fun h => hne r (List.mem_cons_self _ _) h.symm
      rcases processOne_cases st r with h | ⟨tp, h⟩
      · rw [h]
        exact mem_setPrepareOnly_of_ne hx hrx
      · rw [h]
        exact mem_updateRecord_of_ne hx hrx
    · intro q hq
      exact hne q (List.mem_cons_of_mem _ hq)

theorem processOne_bad {st : PrepState} {r : PrepRow}
    (hbad : textUnparseable r.text = true) :
    processOne st r = setPrepareOnly st r.id := by
  unfold processOne
  cases ht : r.text with
  | none => rfl
  | some s =>
    dsimp only
    rw [ht] at hbad
    unfold textUnparseable at hbad
    dsimp only at hbad
    by_cases h1 : s.trim = ""
    · rw [if_pos h1]
      rfl
    · rw [if_neg h1]
      have hlen : (parseParts s).length ≠ 2 ∧ (parseParts s).length ≠ 4 := by
        simp only [Bool.or_eq_true, decide_eq_true_eq, Bool.not_eq_true',
          Bool.or_eq_false_iff, beq_eq_false_iff_ne] at hbad
        rcases hbad with h | h
        · exact absurd h h1
        · exact h
      have hparse : (parseText s).2 = [] := by
        unfold parseText
        rw [if_neg hlen.1, if_neg hlen.2]
      rw [if_pos hparse]
      rfl

theorem mem_of_mem_getRecordsToProcess {rows : List PrepRow} {q : PrepRow}
    (h : q ∈ getRecordsToProcess rows) :
    q ∈ rows ∧ q.prepare = false := by
  have h1 := List.take_subset _ _ h
  have h2 := (List.mergeSort_perm (rows.filter (fun r => ! r.prepare))
    (fun a b => decide (a.id ≤ b.id))).mem_iff.mp h1
  refine ⟨(List.mem_filter.mp h2).1, ?_⟩
  have := (List.mem_filter.mp h2).2
  simpa using this

theorem getRecordsToProcess_nodup {rows : List PrepRow}
    (hnd : (rows.map (fun q => q.id)).Nodup) :
    (getRecordsToProcess rows).Nodup := by
  have h0 : rows.Nodup := hnd.of_map
  have h1 : (rows.filter (fun r => ! r.prepare)).Nodup := h0.filter _
  have h2 := ((List.mergeSort_perm (rows.filter (fun r => ! r.prepare))
    (fun a b => decide (a.id ≤ b.id))).nodup_iff).mpr h1
  exact (List.take_sublist _ _).nodup h2

end Preparator

/-- C10: when the Preparator processes a `to_publish` row whose text is
NULL, empty/whitespace, or splits on the `1111` delimiter into a number of
parts other than 2 or 4, it sets `prepare = true` while leaving
`text_prepared` unchanged, and the row is never fetched for preparation
again. -/
theorem claim_C10_bad_text_marked (st : Preparator.PrepState) (r : Preparator.PrepRow)
    (hmem : r ∈ Preparator.getRecordsToProcess st.toPublish)
    (hbad : Preparator.textUnparseable r.text = true)
    (hnd : (st.toPublish.map (fun q => q.id)).Nodup) :
    (∃ q ∈ (Preparator.checkAndProcess st).toPublish,
      q.id = r.id ∧ q.prepare = true ∧ q.text_prepared = r.text_prepared) ∧
    (∀ q ∈ Preparator.getRecordsToProcess (Preparator.checkAndProcess st).toPublish,
      q.id ≠ r.id) := by
  obtain ⟨hrtp, hrprep⟩ := Preparator.mem_of_mem_getRecordsToProcess hmem
  have hrecnd := Preparator.getRecordsToProcess_nodup hnd
  obtain ⟨l1, l2, hsplit⟩ := List.append_of_mem hmem
  have hne_all : ∀ q ∈ Preparator.getRecordsToProcess st.toPublish, q ≠ r → q.id ≠ r.id := by
    intro q hq hqr hid
    exact hqr (List.inj_on_of_nodup_map hnd
      (Preparator.mem_of_mem_getRecordsToProcess hq).1 hrtp hid)
  have hnd2 : (l1 ++ r :: l2).Nodup := hsplit ▸ hrecnd
  rcases List.nodup_append.mp hnd2 with ⟨-, hndr2, hdisj⟩
  have hrl1 : r ∉ l1 := fun hin => hdisj hin (List.mem_cons_self _ _)
  have hrl2 : r ∉ l2 := (List.nodup_cons.mp hndr2).1
  have hl1ne : ∀ q ∈ l1, q.id ≠ r.id := by
    intro q hq
    apply hne_all q (by rw [hsplit]; exact List.mem_append_left _ hq)
    intro he
    exact hrl1 (he ▸ hq)
  have hl2ne : ∀ q ∈ l2, q.id ≠ r.id := by
    intro q hq
    apply hne_all q (by rw [hsplit]; exact List.mem_append_right _ (List.mem_cons_of_mem _ hq))
    intro he
    exact hrl2 (he ▸ hq)
  have hfold : Preparator.checkAndProcess st =
      Preparator.processRecords
        (Preparator.processOne (Preparator.processRecords st l1) r) l2 := by
    unfold Preparator.checkAndProcess Preparator.processRecords
    rw [hsplit, List.foldl_append, List.foldl_cons]
  have hrst1 : r ∈ (Preparator.processRecords st l1).toPublish :=
    Preparator.processRecords_mem_of_ne l1 st r hrtp hl1ne
  have hpo := @Preparator.processOne_bad (Preparator.processRecords st l1) r hbad
  have hflip : ({ r with prepare := true } : Preparator.PrepRow) ∈
      (Preparator.setPrepareOnly (Preparator.processRecords st l1) r.id).toPublish := by
    have hfx : (fun q => if q.id == r.id then
        ({ q with prepare := true } : Preparator.PrepRow) else q) r =
        { r with prepare := true } := by simp
    have hmm := List.mem_map_of_mem (fun q => if q.id == r.id then
      ({ q with prepare := true } : Preparator.PrepRow) else q) hrst1
    rw [hfx] at hmm
    exact hmm
  have hfinal : ({ r with prepare := true } : Preparator.PrepRow) ∈
      (Preparator.checkAndProcess st).toPublish := by
    rw [hfold, hpo]
    exact Preparator.processRecords_mem_of_ne l2 _ _ hflip hl2ne
  refine ⟨⟨{ r with prepare := true }, hfinal, rfl, rfl, rfl⟩, ?_⟩
  intro q hq hid
  obtain ⟨hqmem, hqprep⟩ := Preparator.mem_of_mem_getRecordsToProcess hq
  have hndfinal : ((Preparator.checkAndProcess st).toPublish.map (fun x => x.id)).Nodup := by
    have hidsfinal : ((Preparator.checkAndProcess st).toPublish.map (fun x => x.id)) =
        st.toPublish.map (fun x => x.id) := by
      unfold Preparator.checkAndProcess
      exact Preparator.processRecords_ids _ _
    rw [hidsfinal]
    exact hnd
  have heq : q = ({ r with prepare := true } : Preparator.PrepRow) :=
    List.inj_on_of_nodup_map hndfinal hqmem hfinal hid
  rw [heq] at hqprep
  cases hqprep

/-- Witness for C10: a state with one whitespace-text row. -/
theorem claim_C10_bad_text_marked_witness :
    ∃ q ∈ (Preparator.checkAndProcess Preparator.exampleBlankState).toPublish,
      q.id = Preparator.exampleBlankRow.id ∧ q.prepare = true ∧
      q.text_prepared = Preparator.exampleBlankRow.text_prepared := by
  have h3 := List.perm_singleton.mp
    (List.mergeSort_perm [Preparator.exampleBlankRow] (fun a b => decide (a.id ≤ b.id)))
  have hmem : Preparator.exampleBlankRow ∈
      Preparator.getRecordsToProcess Preparator.exampleBlankState.toPublish := by
    show Preparator.exampleBlankRow ∈
      (([Preparator.exampleBlankRow].mergeSort (fun a b => decide (a.id ≤ b.id))).take 10)
    rw [h3]
    exact List.mem_cons_self _ _
  obtain ⟨h1, -⟩ := claim_C10_bad_text_marked Preparator.exampleBlankState
    Preparator.exampleBlankRow hmem rfl (by simp [Preparator.exampleBlankState])
  exact h1

namespace Timer

theorem rankedChanges_singleton_bot (r : EntropyRec) (hr : r.bestTimes = []) :
    rankedChanges [r] = [(r, (⊥ : WithBot ℝ))] := by
  have h1 : entropyChanges [r] = [(r, (⊥ : WithBot ℝ))] := by
    simp [entropyChanges, deltaEntropy, hr]
  unfold rankedChanges
  rw [h1]
  exact List.perm_singleton.mp (List.mergeSort_perm _ _)

theorem lookup_enumFrom_map {α : Type} (f : α → ℤ) (g : ℕ → ℤ) :
    ∀ (l : List α) (n k : ℕ) (hk : k < l.length),
      (l.map f).Nodup →
      List.lookup (f (l.get ⟨k, hk⟩))
        ((List.enumFrom n l).map (fun p => (f p.2, g p.1))) = some (g (n + k)) := by
  intro l
  induction l with
  | nil =>
    intro n k hk
    exact absurd hk (by simp)
  | cons x t ih =>
    intro n k hk hnd
    rw [List.map_cons, List.nodup_cons] at hnd
    cases k with
    | zero =>
      simp [List.enumFrom, List.lookup]
    | succ k =>
      have hkt : k < t.length := by
        simpa using hk
      have hget : (x :: t).get ⟨k + 1, hk⟩ = t.get ⟨k, hkt⟩ := rfl
      have hmem : t.get ⟨k, hkt⟩ ∈ t := List.get_mem _ _ _
      have hne : f (t.get ⟨k, hkt⟩) ≠ f x := by
        intro he
        exact hnd.1 (he ▸ List.mem_map_of_mem f hmem)
      rw [hget]
      have hstep : List.lookup (f (t.get ⟨k, hkt⟩))
          ((List.enumFrom (n + 1) t).map (fun p => (f p.2, g p.1))) = some (g (n + 1 + k)) :=
        ih (n + 1) k hkt hnd.2
      simp only [List.enumFrom, List.map_cons, List.lookup_cons]
      rw [show (f (t.get ⟨k, hkt⟩) == f x) = false from beq_eq_false_iff_ne.mpr hne]
      have harith : n + 1 + k = n + (k + 1) := by omega
      rw [harith] at hstep
      exact hstep

theorem rankedChanges_fst_perm (records : List EntropyRec) :
    ((rankedChanges records).map (fun p => p.1)).Perm records := by
  have h1 : ((rankedChanges records).map (fun p => p.1)).Perm
      ((entropyChanges records).map (fun p => p.1)) :=
    (List.mergeSort_perm (entropyChanges records)
      (fun a b => decide (b.2 ≤ a.2))).map (fun p => p.1)
  have h2 : (entropyChanges records).map (fun p => p.1) = records := by
    simp only [entropyChanges, List.map_map]
    exact List.map_id records
  rw [h2] at h1
  exact h1

end Timer

/-- C5 counterexample: a batch consisting of a single record with empty
`best_times` — the record is ranked 0 and receives the rank-table penalty 0,
not the default penalty 3. -/
theorem claim_C5_counterexample :
    Timer.penaltyFor [⟨1, []⟩] 1 = 0 ∧
    Timer.penaltyFor [⟨1, []⟩] 1 ≠ Timer.DEFAULT_ENTROPY_PENALTY := by
  have key : Timer.penaltyFor [⟨1, []⟩] 1 = 0 := by
    unfold Timer.penaltyFor Timer.calculateEntropyPenalties
    rw [Timer.rankedChanges_singleton_bot ⟨1, []⟩ rfl]
    simp [Timer.entropyPenaltyMap, List.enum_cons, List.lookup]
  refine ⟨key, ?_⟩
  rw [key]
  decide

/-- C5 amended: rows are ranked by entropy delta descending (stably) and
each row's penalty is the rank-table value {0:0, 1:0, 2:1, 3:1, 4:2, 5:2,
default 3}; a row with empty `best_times` has delta `-inf`, hence sorts
after every row with non-empty `best_times`, but it receives the penalty of
its rank, which is the default 3 only from rank 6 on. -/
theorem claim_C5_entropy_ranking (records : List Timer.EntropyRec)
    (hnd : (records.map (fun r => r.id)).Nodup) :
    List.Pairwise (fun a b => b.2 ≤ a.2) (Timer.rankedChanges records) ∧
    (∀ p ∈ Timer.rankedChanges records, (p.1.bestTimes = [] ↔ p.2 = ⊥)) ∧
    (∀ k (hk : k < (Timer.rankedChanges records).length),
      Timer.penaltyFor records ((Timer.rankedChanges records).get ⟨k, hk⟩).1.id =
        Timer.entropyPenaltyMap k) := by
  refine ⟨?_, ?_, ?_⟩
  · have hs := @List.sorted_mergeSort (Timer.EntropyRec × WithBot ℝ)
      (fun a b => decide (b.2 ≤ a.2))
      (fun a b c hab hbc => by
        simp only [decide_eq_true_eq] at hab hbc ⊢
        exact le_trans hbc hab)
      (fun a b => by
        simp only [Bool.or_eq_true, decide_eq_true_eq]
        exact le_total b.2 a.2)
      (Timer.entropyChanges records)
    exact hs.imp (fun h => by simpa using h)
  · intro p hp
    have hp2 : p ∈ Timer.entropyChanges records :=
      (List.mergeSort_perm _ _).mem_iff.mp hp
    simp only [Timer.entropyChanges, List.mem_map] at hp2
    obtain ⟨r, hr, rfl⟩ := hp2
    constructor
    · intro hbt
      have hbt2 : r.bestTimes = [] := hbt
      simp [Timer.deltaEntropy, hbt2]
    · intro hbot
      by_contra hbt
      rw [Timer.deltaEntropy, if_neg hbt] at hbot
      exact WithBot.coe_ne_bot hbot
  · intro k hk
    have hndrk : ((Timer.rankedChanges records).map (fun p => p.1.id)).Nodup := by
      have hperm := (Timer.rankedChanges_fst_perm records).map (fun r => r.id)
      rw [List.map_map] at hperm
      exact hperm.nodup_iff.mpr hnd
    have hlk := Timer.lookup_enumFrom_map (fun p => p.1.id) Timer.entropyPenaltyMap
      (Timer.rankedChanges records) 0 k hk hndrk
    unfold Timer.penaltyFor Timer.calculateEntropyPenalties
    rw [List.enum_eq_enumFrom, hlk]
    simp

/-- Witness for the amended C5 theorem on a single empty-`best_times`
record: rank 0, penalty 0. -/
theorem claim_C5_entropy_ranking_witness :
    Timer.penaltyFor [⟨1, ([] : List ℤ)⟩] ((Timer.rankedChanges [⟨1, ([] : List ℤ)⟩]).get
      ⟨0, by rw [Timer.rankedChanges_singleton_bot ⟨1, []⟩ rfl]; exact Nat.zero_lt_one⟩).1.id =
      Timer.entropyPenaltyMap 0 := by
  obtain ⟨-, -, h3⟩ := claim_C5_entropy_ranking [⟨1, ([] : List ℤ)⟩] (by simp)
  exact h3 0 _
